import Mathlib

/-!
Verification of the BuildGuard scan-pipeline orchestration model.

The repository ships the scan-commit pipeline frontend (TypeScript) together
with the natural-language design of the orchestration core.  The frontend
types and pure helpers (`ScanJobStatus`, `ScanJob`, `apiFetch`, `buildPath`)
are embedded directly from the TypeScript source; the backend orchestration
core (Job Store, Retry Controller, Dispatcher, Result and Failure Ledger)
lives in `services/pipeline-backend`, which is not part of the source tree
here, so those operations are modelled from the specification, each marked
`Modelled from the spec:` in its doc comment.
-/

namespace Pipeline

/-- Embeds the `ScanJobStatus` enum of the scan-commit pipeline frontend
(`src/unnamed/part_007`, lines 13-19). -/
inductive ScanJobStatus where
  | PENDING
  | RUNNING
  | SUCCESS
  | FAILED_TEMP
  | FAILED_PERMANENT
deriving DecidableEq

/-- Wire string of each pipeline status, exactly the enum member values of
the TypeScript source. -/
def ScanJobStatus.wire : ScanJobStatus → String
  | .PENDING => "PENDING"
  | .RUNNING => "RUNNING"
  | .SUCCESS => "SUCCESS"
  | .FAILED_TEMP => "FAILED_TEMP"
  | .FAILED_PERMANENT => "FAILED_PERMANENT"

/-- Enumeration of the pipeline status values in declaration order. -/
def ScanJobStatus.all : List ScanJobStatus :=
  [.PENDING, .RUNNING, .SUCCESS, .FAILED_TEMP, .FAILED_PERMANENT]

/-- Embeds the `ScanJob` record of the scan-commit pipeline frontend
(`src/unnamed/part_007`, lines 37-54).  Optional / nullable TypeScript
fields become `Option`; timestamps stay as their ISO strings. -/
structure ScanJob where
  id : String
  project_id : String
  project_key : Option String
  commit_sha : String
  status : ScanJobStatus
  retry_count : Nat
  max_retries : Nat
  last_error : Option String
  sonar_instance : Option String
  component_key : Option String
  config_override : Option String
  config_source : Option String
  repository_url : Option String
  repo_slug : Option String
  created_at : String
  updated_at : String
deriving DecidableEq

/-- Shallow model of a `fetch` response as `apiFetch` observes it: the `ok`
flag, numeric status, the body text (`response.text()`), and the parsed JSON
body (`response.json()`), kept opaque as a string representation. -/
structure HttpResponse where
  ok : Bool
  status : Nat
  bodyText : String
  jsonBody : String
deriving DecidableEq

/-- Result of one `apiFetch` call: a thrown `Error`, the `{}` returned for
status 204, or the parsed JSON body. -/
inductive ApiResult where
  | thrown (msg : String)
  | emptyObject
  | json (body : String)
deriving DecidableEq

/-- Embeds `apiFetch` (`src/unnamed/part_007`, lines 95-111): throw on a
non-ok response carrying `detail || default`, return `{}` on 204, otherwise
return the parsed JSON body. -/
def apiFetch (path : String) (r : HttpResponse) : ApiResult :=
  if r.ok = false then
    .thrown (if r.bodyText = "" then "Request to " ++ path ++ " failed" else r.bodyText)
  else if r.status = 204 then
    .emptyObject
  else
    .json r.jsonBody

/-- JavaScript values that can appear in the query-string record handed to
`buildPath`. -/
inductive JsVal where
  | undef
  | nullv
  | str (s : String)
  | num (n : Int)
  | boolean (b : Bool)
deriving DecidableEq

/-- JavaScript `String(v)` on a query value. -/
def jsString : JsVal → String
  | .undef => "undefined"
  | .nullv => "null"
  | .str s => s
  | .num n => toString n
  | .boolean b => cond b "true" "false"

/-- A query value survives the `buildPath` loop unless it is `undefined` or
`null` (the `continue` branch of the source). -/
def keepQueryValue : JsVal → Bool
  | .undef => false
  | .nullv => false
  | _ => true

/-- The `params.append` loop of `buildPath`: walk the record entries in key
order, skipping `undefined` and `null`, appending the stringified value. -/
def appendParams (params : List (String × String)) :
    List (String × JsVal) → List (String × String)
  | [] => params
  | (k, v) :: rest =>
    if keepQueryValue v then appendParams (params ++ [(k, jsString v)]) rest
    else appendParams params rest

/-- Model of `URLSearchParams.toString`: `key=value` pairs joined by `&`
(percent-escaping is not modelled; the claims under check concern which
parameters appear and in what order). -/
def paramsToString : List (String × String) → String
  | [] => ""
  | [(k, v)] => k ++ "=" ++ v
  | (k, v) :: rest => k ++ "=" ++ v ++ "&" ++ paramsToString rest

/-- Embeds `buildPath` (`src/unnamed/part_007`, lines 113-123): build the
search params from the record, then return the bare path when their string
form is empty and `path?suffix` otherwise. -/
def buildPath (path : String) (qs : Option (List (String × JsVal))) : String :=
  match qs with
  | none => path
  | some l =>
    let suffix := paramsToString (appendParams [] l)
    if suffix = "" then path else path ++ "?" ++ suffix

/-- Spec §3: `PENDING` and `FAILED_TEMP` are both eligible to run; `RUNNING`
is exclusively owned; `SUCCESS` and `FAILED_PERMANENT` are terminal. -/
def eligibleStatus : ScanJobStatus → Bool
  | .PENDING => true
  | .FAILED_TEMP => true
  | _ => false

/-- Spec §4.3: outcome of one scan attempt as the Executor classifies it. -/
inductive Outcome where
  | success (metrics : List (String × String))
  | transientFailure (reason : String)
  | permanentFailure (reason : String)
deriving DecidableEq

/-- Modelled from the spec: the Retry Controller `next_state` policy (§4.5)
of the pipeline backend, which is not part of this source tree.  A transient
failure with budget left increments `retry_count` and yields `FAILED_TEMP`;
once `retry_count` has reached `max_retries` any further failure forces
`FAILED_PERMANENT`; a permanent failure forces `FAILED_PERMANENT` at once
with `retry_count` untouched; success yields `SUCCESS`. -/
def applyOutcome (j : ScanJob) (o : Outcome) : ScanJob :=
  match o with
  | .success _ => { j with status := .SUCCESS }
  | .permanentFailure r => { j with status := .FAILED_PERMANENT, last_error := some r }
  | .transientFailure r =>
    if j.retry_count < j.max_retries then
      { j with status := .FAILED_TEMP, retry_count := j.retry_count + 1, last_error := some r }
    else
      { j with status := .FAILED_PERMANENT, last_error := some r }

/-- Modelled from the spec: the operator retry endpoint
`POST /api/scan-jobs/\x7bid\x7d/retry` (spec §6), whose backend handler is not in
this source tree; the frontend client is `api.retryScanJob`
(`src/unnamed/part_007`, lines 198-205).  It accepts an optional config
override text and override source tag, resets the status to `PENDING`,
clears `last_error`, and leaves `retry_count` (and everything else) alone. -/
def retryScanJob (j : ScanJob) (co cs : Option String) : ScanJob :=
  { j with
    status := .PENDING
    last_error := none
    config_override := co.orElse fun _ => j.config_override
    config_source := cs.orElse fun _ => j.config_source }

/-- Label naming which lifecycle transition a `JobStep` performs. -/
inductive StepLabel where
  | claimL (inst : String)
  | finishL (o : Outcome)
  | expireL (s : ScanJobStatus)
  | retryL (co cs : Option String)

/-- Modelled from the spec: the per-job transitions of the Dispatcher state
machine (§4.4), the lease-expiry rule (§5), and the operator retry (§6).
`claimL` flips an eligible job to `RUNNING` and assigns an instance;
`finishL` applies the Retry Controller to a `RUNNING` job's attempt outcome;
`expireL` returns a `RUNNING` job whose owner crashed to an eligible state;
`retryL` is the operator retry endpoint. -/
inductive JobStep : ScanJob → StepLabel → ScanJob → Prop where
  | claim (j : ScanJob) (inst : String) (h : eligibleStatus j.status = true) :
      JobStep j (.claimL inst) { j with status := .RUNNING, sonar_instance := some inst }
  | finish (j : ScanJob) (o : Outcome) (h : j.status = .RUNNING) :
      JobStep j (.finishL o) (applyOutcome j o)
  | expire (j : ScanJob) (s : ScanJobStatus) (h : j.status = .RUNNING)
      (hs : eligibleStatus s = true) :
      JobStep j (.expireL s) { j with status := s, sonar_instance := none }
  | operatorRetry (j : ScanJob) (co cs : Option String) :
      JobStep j (.retryL co cs) (retryScanJob j co cs)

/-- A lifecycle transition with its label forgotten. -/
def JobStepAny (j j' : ScanJob) : Prop := ∃ l, JobStep j l j'

/-- One dispatcher round against an always-transient Executor: if the job is
eligible it is claimed (status becomes `RUNNING`) and the transient outcome
is applied; otherwise nothing happens. -/
def dispatchTransient (reason : String) (j : ScanJob) : ScanJob :=
  if eligibleStatus j.status then
    applyOutcome { j with status := .RUNNING } (.transientFailure reason)
  else j

/-- Iterated dispatcher rounds against an always-transient Executor. -/
def transientRun (reason : String) (j : ScanJob) : Nat → ScanJob
  | 0 => j
  | n + 1 => dispatchTransient reason (transientRun reason j n)

/-- Modelled from the spec: the Job Store `claim_next` (§4.1) of the
pipeline backend, which is not part of this source tree.  In one atomic
conditional update it walks the store, flips up to `limit` eligible jobs to
`RUNNING`, and returns exactly the flipped jobs; jobs already `RUNNING` (or
terminal) are never returned. -/
def claimNext : List ScanJob → Nat → List ScanJob × List ScanJob
  | [], _ => ([], [])
  | j :: rest, 0 => ([], j :: rest)
  | j :: rest, n + 1 =>
    if eligibleStatus j.status then
      let p := claimNext rest n
      (({ j with status := .RUNNING }) :: p.1, ({ j with status := .RUNNING }) :: p.2)
    else
      let p := claimNext rest (n + 1)
      (p.1, j :: p.2)

/-- A whole round of claim operations: since each `claim_next` is one atomic
conditional update, any interleaving of N concurrent callers is equivalent
to the callers' claims applied in some sequential order; `claimSeq` runs one
such order and collects each caller's returned batch. -/
def claimSeq (store : List ScanJob) : List Nat → List (List ScanJob)
  | [] => []
  | n :: ns => (claimNext store n).1 :: claimSeq (claimNext store n).2 ns

/-- Every job in the store carrying this id is currently `RUNNING`. -/
def idRunning (store : List ScanJob) (i : String) : Prop :=
  ∀ j ∈ store, j.id = i → j.status = .RUNNING

/-- Filters accepted by the list-jobs endpoint (spec §6). -/
structure ScanJobFilters where
  status : Option ScanJobStatus
  project_id : Option String

/-- A job matches the filters when every present filter field agrees. -/
def matchesFilters (f : ScanJobFilters) (j : ScanJob) : Bool :=
  (match f.status with
   | none => true
   | some s => decide (j.status = s)) &&
  (match f.project_id with
   | none => true
   | some p => decide (j.project_id = p))

/-- Sort key of a job for a given `sort_by` field name. -/
def sortKey (field : String) (j : ScanJob) : String :=
  match field with
  | "commit_sha" => j.commit_sha
  | "created_at" => j.created_at
  | "updated_at" => j.updated_at
  | "status" => j.status.wire
  | _ => j.id

/-- Ordering relation induced by a sort field and direction. -/
def jobOrder (field dir : String) (a b : ScanJob) : Prop :=
  if dir = "desc" then sortKey field b ≤ sortKey field a
  else sortKey field a ≤ sortKey field b

instance (field dir : String) : DecidableRel (jobOrder field dir) := by
  intro a b
  unfold jobOrder
  infer_instance

/-- Modelled from the spec: the list-jobs endpoint `GET /api/scan-jobs`
(spec §6), whose backend handler is not in this source tree; the frontend
client is `api.listScanJobsPaginated` (`src/unnamed/part_007`, lines
181-196).  It filters on `\x7bstatus, project_id\x7d`, sorts by the requested
field and direction, returns the requested page, and reports the total
count of matching jobs. -/
def listJobs (store : List ScanJob) (f : ScanJobFilters)
    (page pageSize : Nat) (sortBy sortDir : String) : List ScanJob × Nat :=
  let filtered := store.filter (matchesFilters f)
  let sorted := List.insertionSort (jobOrder sortBy sortDir) filtered
  ((sorted.drop ((page - 1) * pageSize)).take pageSize, filtered.length)

end Pipeline

namespace BuildRisk

/-- Embeds the distinct `ScanJobStatus` enum of the build-risk frontend
(`src/unnamed/part_002`, lines 213-218), which has four members with
lowercase wire values. -/
inductive ScanJobStatus where
  | PENDING
  | RUNNING
  | SUCCESS
  | FAILED
deriving DecidableEq

/-- Wire string of each build-risk status, exactly the enum member values of
the TypeScript source. -/
def ScanJobStatus.wire : ScanJobStatus → String
  | .PENDING => "pending"
  | .RUNNING => "running"
  | .SUCCESS => "success"
  | .FAILED => "failed"

/-- Enumeration of the build-risk status values in declaration order. -/
def ScanJobStatus.all : List ScanJobStatus :=
  [.PENDING, .RUNNING, .SUCCESS, .FAILED]

/-- Embeds the build-risk `ScanJob` record (`src/unnamed/part_002`, lines
242-256); its `status` field ranges over the four-valued enum above. -/
structure ScanJob where
  id : String
  repo_id : String
  build_id : String
  commit_sha : String
  status : ScanJobStatus
  worker_id : Option String
  started_at : Option String
  finished_at : Option String
  sonar_component_key : Option String
  error_message : Option String
  logs : Option String
  created_at : String
  updated_at : String
deriving DecidableEq

/-- Embeds the build-risk `FailedScan` record (`src/unnamed/part_002`, lines
89-104): the failure-ledger entry carrying the commit, the failure reason
and classification, the retry history, and the operator config override. -/
structure FailedScan where
  id : String
  repo_id : String
  build_id : String
  job_id : String
  commit_sha : String
  reason : String
  error_type : String
  status : String
  config_override : Option String
  config_source : Option String
  retry_count : Nat
  resolved_at : Option String
  created_at : String
  updated_at : String
deriving DecidableEq

end BuildRisk

namespace Pipeline

/-- Modelled from the spec: `apply_override(failed_id, config)` of the
Result and Failure Ledger (§4.6), whose backend is not in this source tree;
the failure-ledger record shape is the `FailedScan` interface of
`src/unnamed/part_002`.  The operator-supplied override text is stored on
the matching record. -/
def applyOverride (failures : List BuildRisk.FailedScan) (failedId cfg : String) :
    List BuildRisk.FailedScan :=
  failures.map fun g =>
    if g.id = failedId then { g with config_override := some cfg, config_source := some "text" }
    else g

/-- Joint state of the Job Store and the failure ledger. -/
structure LedgerState where
  jobs : List ScanJob
  failures : List BuildRisk.FailedScan

/-- Fresh `PENDING` job built from a failure-ledger record on requeue: zero
retries, the record's override attached, nothing assigned yet. -/
def requeueJob (f : BuildRisk.FailedScan) (newJobId : String) (maxRetries : Nat)
    (now : String) : ScanJob :=
  { id := newJobId
    project_id := f.repo_id
    project_key := none
    commit_sha := f.commit_sha
    status := .PENDING
    retry_count := 0
    max_retries := maxRetries
    last_error := none
    sonar_instance := none
    component_key := none
    config_override := f.config_override
    config_source := f.config_source
    repository_url := none
    repo_slug := none
    created_at := now
    updated_at := now }

/-- Marking a failure-ledger record resolved on requeue. -/
def markResolved (f : BuildRisk.FailedScan) (now : String) : BuildRisk.FailedScan :=
  { f with status := "resolved", resolved_at := some now, updated_at := now }

/-- Modelled from the spec: `requeue(failed_id)` of the Result and Failure
Ledger (§4.6), whose backend is not in this source tree; the frontend client
is `sonarApi.retryFailedScan` (`src/unnamed/part_004`).  It creates a new
`PENDING` `ScanJob` carrying the record's override and leaves the original
record in the ledger marked resolved; an unknown id changes nothing. -/
def requeue (st : LedgerState) (failedId newJobId : String) (maxRetries : Nat)
    (now : String) : LedgerState :=
  match st.failures.find? (fun g => g.id == failedId) with
  | none => st
  | some f =>
    { jobs := requeueJob f newJobId maxRetries now :: st.jobs
      failures := st.failures.map fun g => if g.id = failedId then markResolved g now else g }

/-- Concrete freshly created job used to instantiate the general theorems. -/
def demoJob : ScanJob :=
  { id := "job-1"
    project_id := "proj-1"
    project_key := some "org:proj"
    commit_sha := "abc123"
    status := .PENDING
    retry_count := 0
    max_retries := 2
    last_error := none
    sonar_instance := none
    component_key := none
    config_override := none
    config_source := none
    repository_url := none
    repo_slug := none
    created_at := "t0"
    updated_at := "t0" }

/-- Concrete permanently failed job. -/
def demoJob2 : ScanJob :=
  { demoJob with
    id := "job-2"
    status := .FAILED_PERMANENT
    retry_count := 2
    last_error := some "bad sonar config" }

/-- Concrete job store holding one job of each eligibility class. -/
def demoStore : List ScanJob :=
  [demoJob, demoJob2, { demoJob with id := "job-3", status := .FAILED_TEMP, retry_count := 1 }]

/-- Concrete 204 response used to instantiate the `apiFetch` theorem. -/
def demoResponse : HttpResponse :=
  { ok := true, status := 204, bodyText := "", jsonBody := "" }

/-- Concrete failure-ledger record used to instantiate the requeue theorem. -/
def demoFailed : BuildRisk.FailedScan :=
  { id := "fail-1"
    repo_id := "proj-1"
    build_id := "build-1"
    job_id := "job-2"
    commit_sha := "abc123"
    reason := "bad sonar config"
    error_type := "permanent"
    status := "open"
    config_override := none
    config_source := none
    retry_count := 2
    resolved_at := none
    created_at := "t0"
    updated_at := "t0" }

/-- Concrete joint state used to instantiate the requeue theorem. -/
def demoLedger : LedgerState :=
  { jobs := demoStore, failures := [demoFailed] }

end Pipeline

open Pipeline in
/-- Helper: the `params.append` loop collects exactly the entries whose
values survive the undefined/null filter, stringified, in key order. -/
theorem appendParams_eq_filter (l : List (String × JsVal))
    (acc : List (String × String)) :
    appendParams acc l =
      acc ++ (l.filter fun kv => keepQueryValue kv.2).map fun kv => (kv.1, jsString kv.2) := by
  induction l generalizing acc with
  | nil => simp [appendParams]
  | cons kv rest ih =>
    obtain ⟨k, v⟩ := kv
    by_cases h : keepQueryValue v = true
    · simp [appendParams, h, ih]
    · simp only [Bool.not_eq_true] at h
      simp [appendParams, h, ih]

open Pipeline in
/-- Helper: a nonempty parameter list never serializes to the empty string. -/
theorem paramsToString_ne_empty (k v : String) (ps : List (String × String)) :
    paramsToString ((k, v) :: ps) ≠ "" := by
  intro h
  have hlen := congrArg String.length h
  have heq : ("=" : String).length = 1 := rfl
  have hnil : ("" : String).length = 0 := rfl
  cases ps with
  | nil =>
    rw [show paramsToString [(k, v)] = k ++ "=" ++ v from rfl, String.length_append,
      String.length_append, heq, hnil] at hlen
    omega
  | cons q qs =>
    have hamp : ("&" : String).length = 1 := rfl
    rw [show paramsToString ((k, v) :: q :: qs) = k ++ "=" ++ v ++ "&" ++ paramsToString (q :: qs)
        from rfl, String.length_append, String.length_append, String.length_append,
      String.length_append, heq, hamp, hnil] at hlen
    omega

/-- C10: for every path and query record, `buildPath` appends exactly the
parameters whose values are neither undefined nor null, stringified, in the
record's key order; when none survives the filter the path is returned
unchanged, with no question-mark suffix (and an absent record also leaves
the path unchanged). -/
theorem buildPath_query_filtering (path : String) (l : List (String × Pipeline.JsVal)) :
    Pipeline.buildPath path (some l) =
      (if (l.filter fun kv => Pipeline.keepQueryValue kv.2) = [] then path
       else path ++ "?" ++ Pipeline.paramsToString
         ((l.filter fun kv => Pipeline.keepQueryValue kv.2).map
           fun kv => (kv.1, Pipeline.jsString kv.2))) ∧
    Pipeline.buildPath path none = path := by
  constructor
  · show (let suffix := Pipeline.paramsToString (Pipeline.appendParams [] l);
      if suffix = "" then path else path ++ "?" ++ suffix) = _
    rw [appendParams_eq_filter]
    cases h : l.filter fun kv => Pipeline.keepQueryValue kv.2 with
    | nil => simp [Pipeline.paramsToString]
    | cons kv rest =>
      obtain ⟨k, v⟩ := kv
      simp only [List.nil_append, List.map_cons]
      rw [if_neg (paramsToString_ne_empty _ _ _)]
      simp
  · rfl

/-- C9: `apiFetch` throws exactly when the response is not ok, carrying the
body text or the default message when that text is empty; an ok 204 response
yields the empty object without touching the body; any other ok response
yields the parsed JSON body. -/
theorem apiFetch_spec (path : String) (r : Pipeline.HttpResponse) :
    ((∃ m, Pipeline.apiFetch path r = .thrown m) ↔ r.ok = false) ∧
    (r.ok = false →
      Pipeline.apiFetch path r =
        .thrown (if r.bodyText = "" then "Request to " ++ path ++ " failed" else r.bodyText)) ∧
    (r.ok = true → r.status = 204 → Pipeline.apiFetch path r = .emptyObject) ∧
    (r.ok = true → r.status ≠ 204 → Pipeline.apiFetch path r = .json r.jsonBody) := by
  by_cases hok : r.ok = false
  · have hthr : Pipeline.apiFetch path r =
        .thrown (if r.bodyText = "" then "Request to " ++ path ++ " failed" else r.bodyText) := by
      simp [Pipeline.apiFetch, hok]
    exact ⟨⟨fun _ => hok, fun _ => ⟨_, hthr⟩⟩, fun _ => hthr,
      fun h => by simp [h] at hok, fun h => by simp [h] at hok⟩
  · have hok' : r.ok = true := by simpa using hok
    by_cases h204 : r.status = 204
    · have he : Pipeline.apiFetch path r = .emptyObject := by
        simp [Pipeline.apiFetch, hok', h204]
      exact ⟨⟨fun hex => by obtain ⟨m, hm⟩ := hex; rw [he] at hm; exact
            Pipeline.ApiResult.noConfusion hm,
          fun hf => absurd hok' (by simp [hf])⟩,
        fun hf => absurd hok' (by simp [hf]),
        fun _ _ => he,
        fun _ hne => absurd h204 hne⟩
    · have hj : Pipeline.apiFetch path r = .json r.jsonBody := by
        simp [Pipeline.apiFetch, hok', h204]
      exact ⟨⟨fun hex => by obtain ⟨m, hm⟩ := hex; rw [hj] at hm; exact
            Pipeline.ApiResult.noConfusion hm,
          fun hf => absurd hok' (by simp [hf])⟩,
        fun hf => absurd hok' (by simp [hf]),
        fun _ heq => absurd heq h204,
        fun _ _ => hj⟩

/-- C9 witness: a concrete ok 204 response yields the empty object. -/
theorem apiFetch_spec_witness :
    Pipeline.apiFetch "/api/projects" Pipeline.demoResponse = .emptyObject :=
  (apiFetch_spec "/api/projects" Pipeline.demoResponse).2.2.1 rfl rfl

/-- C4 counterexample: the repository declares a second scan-job status type
(the build-risk frontend's `ScanJobStatus`) whose member `FAILED` has wire
value "failed"; that type has four values, not five, it lacks `FAILED_TEMP`,
and its value "failed" is none of the five claimed values. -/
theorem scan_status_counterexample :
    BuildRisk.ScanJobStatus.all.length = 4 ∧
    BuildRisk.ScanJobStatus.wire BuildRisk.ScanJobStatus.FAILED = "failed" ∧
    "FAILED_TEMP" ∉ BuildRisk.ScanJobStatus.all.map BuildRisk.ScanJobStatus.wire ∧
    "failed" ∉ Pipeline.ScanJobStatus.all.map Pipeline.ScanJobStatus.wire := by
  refine ⟨rfl, rfl, ?_, ?_⟩ <;> decide

/-- C4 (amended): the scan-commit pipeline's scan-job status type consists
of exactly the five values PENDING, RUNNING, SUCCESS, FAILED_TEMP,
FAILED_PERMANENT, and every pipeline scan job's status holds one of them;
the build-risk frontend separately declares a four-valued scan-job status
type with values pending, running, success, failed. -/
theorem scan_status_enumeration :
    (∀ s : Pipeline.ScanJobStatus, s ∈ Pipeline.ScanJobStatus.all) ∧
    Pipeline.ScanJobStatus.all.map Pipeline.ScanJobStatus.wire =
      ["PENDING", "RUNNING", "SUCCESS", "FAILED_TEMP", "FAILED_PERMANENT"] ∧
    Pipeline.ScanJobStatus.all.Nodup ∧
    (∀ s : BuildRisk.ScanJobStatus, s ∈ BuildRisk.ScanJobStatus.all) ∧
    BuildRisk.ScanJobStatus.all.map BuildRisk.ScanJobStatus.wire =
      ["pending", "running", "success", "failed"] ∧
    BuildRisk.ScanJobStatus.all.Nodup := by
  refine ⟨fun s => ?_, rfl, by decide, fun s => ?_, rfl, by decide⟩
  · cases s <;> simp [Pipeline.ScanJobStatus.all]
  · cases s <;> simp [BuildRisk.ScanJobStatus.all]

/-- C5: a pipeline `ScanJob` record carries id, project id, commit
identifier, status, retry_count, max_retries, last_error, a nullable
assigned-instance field, a nullable component_key, created_at and
updated_at: each claimed field is a genuine component of the record, and
the nullable ones allow absent values. -/
theorem scanjob_field_carrier :
    (∀ (i pid ck ca ua : String) (pk : Option String) (st : Pipeline.ScanJobStatus)
        (rc mr : Nat) (le si cok co cs ru rs : Option String),
      let j : Pipeline.ScanJob := ⟨i, pid, pk, ck, st, rc, mr, le, si, cok, co, cs, ru, rs, ca, ua⟩
      j.id = i ∧ j.project_id = pid ∧ j.commit_sha = ck ∧ j.status = st ∧
        j.retry_count = rc ∧ j.max_retries = mr ∧ j.last_error = le ∧
        j.sonar_instance = si ∧ j.component_key = cok ∧ j.created_at = ca ∧ j.updated_at = ua) ∧
    (∃ j : Pipeline.ScanJob,
      j.last_error = none ∧ j.sonar_instance = none ∧ j.component_key = none) ∧
    (∃ j : Pipeline.ScanJob,
      j.last_error.isSome ∧ Pipeline.demoJob2.last_error = some "bad sonar config") := by
  refine ⟨fun i pid ck ca ua pk st rc mr le si cok co cs ru rs =>
      ⟨rfl, rfl, rfl, rfl, rfl, rfl, rfl, rfl, rfl, rfl, rfl⟩,
    ⟨Pipeline.demoJob, rfl, rfl, rfl⟩, ⟨Pipeline.demoJob2, rfl, rfl⟩⟩

/-- C7: the operator retry operation takes the optional override text and
source tag, resets the status to `PENDING`, clears `last_error`, and leaves
`retry_count` (as well as the job's identity and budget) unchanged. -/
theorem retry_endpoint_effect (j : Pipeline.ScanJob) (co cs : Option String) :
    (Pipeline.retryScanJob j co cs).status = .PENDING ∧
    (Pipeline.retryScanJob j co cs).last_error = none ∧
    (Pipeline.retryScanJob j co cs).retry_count = j.retry_count ∧
    (Pipeline.retryScanJob j co cs).max_retries = j.max_retries ∧
    (Pipeline.retryScanJob j co cs).id = j.id ∧
    (Pipeline.retryScanJob j co cs).project_id = j.project_id ∧
    (Pipeline.retryScanJob j co cs).commit_sha = j.commit_sha :=
  ⟨rfl, rfl, rfl, rfl, rfl, rfl, rfl⟩

/-- Helper: a permanently failed job is not eligible, so a dispatcher round
leaves it untouched. -/
theorem dispatchTransient_fixed (reason : String) (j : Pipeline.ScanJob)
    (h : j.status = .FAILED_PERMANENT) :
    Pipeline.dispatchTransient reason j = j := by
  simp [Pipeline.dispatchTransient, Pipeline.eligibleStatus, h]

/-- Helper: one dispatcher round on an eligible job is exactly the Retry
Controller's transient-failure policy on it. -/
theorem dispatchTransient_eligible (reason : String) (j : Pipeline.ScanJob)
    (h : Pipeline.eligibleStatus j.status = true) :
    Pipeline.dispatchTransient reason j =
      if j.retry_count < j.max_retries then
        { j with
          status := .FAILED_TEMP
          retry_count := j.retry_count + 1
          last_error := some reason }
      else
        { j with status := .FAILED_PERMANENT, last_error := some reason } := by
  simp only [Pipeline.dispatchTransient, h, if_true, Pipeline.applyOutcome]

/-- Helper: while the retry budget lasts, each transient round increments
`retry_count` by one and parks the job in `FAILED_TEMP` (or leaves the fresh
job `PENDING` at round zero), keeping `max_retries` fixed. -/
theorem transientRun_invariant (j0 : Pipeline.ScanJob) (reason : String)
    (h1 : j0.status = .PENDING) (h2 : j0.retry_count = 0) :
    ∀ k, k ≤ j0.max_retries →
      (Pipeline.transientRun reason j0 k).retry_count = k ∧
      (Pipeline.transientRun reason j0 k).max_retries = j0.max_retries ∧
      (Pipeline.transientRun reason j0 k).status =
        (if k = 0 then Pipeline.ScanJobStatus.PENDING else .FAILED_TEMP) := by
  intro k
  induction k with
  | zero => exact fun _ => ⟨h2, rfl, by simp [Pipeline.transientRun, h1]⟩
  | succ k ih =>
    intro hk
    obtain ⟨hc, hm, hs⟩ := ih (Nat.le_of_succ_le hk)
    have helig : Pipeline.eligibleStatus (Pipeline.transientRun reason j0 k).status = true := by
      rw [hs]
      by_cases hk0 : k = 0 <;> simp [hk0, Pipeline.eligibleStatus]
    have hstep : Pipeline.transientRun reason j0 (k + 1) =
        Pipeline.dispatchTransient reason (Pipeline.transientRun reason j0 k) := rfl
    rw [hstep, dispatchTransient_eligible reason _ helig,
      if_pos (show (Pipeline.transientRun reason j0 k).retry_count <
        (Pipeline.transientRun reason j0 k).max_retries by rw [hc, hm]; omega)]
    exact ⟨by simp [hc], by simp [hm], by simp⟩

/-- Helper: the round after the budget is exhausted quarantines the job:
`FAILED_PERMANENT` with `retry_count` stuck at `max_retries`. -/
theorem transientRun_exhausts (j0 : Pipeline.ScanJob) (reason : String)
    (h1 : j0.status = .PENDING) (h2 : j0.retry_count = 0) :
    (Pipeline.transientRun reason j0 (j0.max_retries + 1)).status = .FAILED_PERMANENT ∧
    (Pipeline.transientRun reason j0 (j0.max_retries + 1)).retry_count = j0.max_retries := by
  obtain ⟨hc, hm, hs⟩ := transientRun_invariant j0 reason h1 h2 j0.max_retries le_rfl
  have helig : Pipeline.eligibleStatus
      (Pipeline.transientRun reason j0 j0.max_retries).status = true := by
    rw [hs]
    by_cases hk0 : j0.max_retries = 0 <;> simp [hk0, Pipeline.eligibleStatus]
  have hstep : Pipeline.transientRun reason j0 (j0.max_retries + 1) =
      Pipeline.dispatchTransient reason (Pipeline.transientRun reason j0 j0.max_retries) := rfl
  rw [hstep, dispatchTransient_eligible reason _ helig,
    if_neg (show ¬ ((Pipeline.transientRun reason j0 j0.max_retries).retry_count <
      (Pipeline.transientRun reason j0 j0.max_retries).max_retries) by rw [hc, hm]; omega)]
  exact ⟨by simp, by simp [hc]⟩

/-- C2: a job whose Executor always returns a transient failure reaches
`FAILED_PERMANENT` after exactly `max_retries + 1` executed attempts: each
attempt inside the budget increments `retry_count` and parks the job in
`FAILED_TEMP`, no attempt inside the budget can quarantine it, attempt
`max_retries + 1` does, and from then on the terminal job is never claimed
again, so no further attempt executes. -/
theorem transient_exhaustion (j0 : Pipeline.ScanJob) (reason : String)
    (h1 : j0.status = .PENDING) (h2 : j0.retry_count = 0) :
    (∀ k, 1 ≤ k → k ≤ j0.max_retries →
      (Pipeline.transientRun reason j0 k).status = .FAILED_TEMP ∧
      (Pipeline.transientRun reason j0 k).retry_count = k) ∧
    (∀ k, k ≤ j0.max_retries →
      (Pipeline.transientRun reason j0 k).status ≠ .FAILED_PERMANENT) ∧
    (Pipeline.transientRun reason j0 (j0.max_retries + 1)).status = .FAILED_PERMANENT ∧
    (Pipeline.transientRun reason j0 (j0.max_retries + 1)).retry_count = j0.max_retries ∧
    (∀ n, Pipeline.transientRun reason j0 (j0.max_retries + 1 + n) =
      Pipeline.transientRun reason j0 (j0.max_retries + 1)) := by
  obtain ⟨hfp, hcnt⟩ := transientRun_exhausts j0 reason h1 h2
  refine ⟨fun k hk1 hk => ?_, fun k hk => ?_, hfp, hcnt, fun n => ?_⟩
  · obtain ⟨hc, _, hs⟩ := transientRun_invariant j0 reason h1 h2 k hk
    have hk0 : ¬ (k = 0) := by omega
    rw [if_neg hk0] at hs
    exact ⟨hs, hc⟩
  · obtain ⟨_, _, hs⟩ := transientRun_invariant j0 reason h1 h2 k hk
    rw [hs]
    by_cases hk0 : k = 0 <;> simp [hk0]
  · induction n with
    | zero => rfl
    | succ n ihn =>
      show Pipeline.dispatchTransient reason
          (Pipeline.transientRun reason j0 (j0.max_retries + 1 + n)) = _
      rw [ihn]
      exact dispatchTransient_fixed reason _ hfp

/-- C2 witness: the concrete fresh job with `max_retries = 2` is
quarantined by its third consecutive transient attempt. -/
theorem transient_exhaustion_witness :
    (Pipeline.transientRun "timeout" Pipeline.demoJob 3).status = .FAILED_PERMANENT :=
  (transient_exhaustion Pipeline.demoJob "timeout" rfl rfl).2.2.1

/-- Helper: every lifecycle transition preserves the retry-budget bound. -/
theorem jobStep_retry_le {j : Pipeline.ScanJob} {l : Pipeline.StepLabel}
    {j' : Pipeline.ScanJob} (hinv : j.retry_count ≤ j.max_retries)
    (hs : Pipeline.JobStep j l j') : j'.retry_count ≤ j'.max_retries := by
  cases hs with
  | claim inst h => exact hinv
  | expire s h hsel => exact hinv
  | operatorRetry co cs => exact hinv
  | finish o h =>
    cases o with
    | success m => exact hinv
    | permanentFailure r => exact hinv
    | transientFailure r =>
      simp only [Pipeline.applyOutcome]
      split
      · next h' => exact h'
      · exact hinv

/-- C1: along every lifecycle (any sequence of claim, attempt-finish, lease
expiry and operator-retry transitions from a freshly created job),
`retry_count` never exceeds `max_retries`; and a single transition can land
in `FAILED_PERMANENT` only when it finishes a failing attempt that is either
transient with the budget already exhausted (`retry_count = max_retries`) or
classified permanent regardless of remaining budget. -/
theorem retry_budget_invariant :
    (∀ j0 j : Pipeline.ScanJob, j0.retry_count = 0 →
      Relation.ReflTransGen Pipeline.JobStepAny j0 j →
      j.retry_count ≤ j.max_retries) ∧
    (∀ (j : Pipeline.ScanJob) (l : Pipeline.StepLabel) (j' : Pipeline.ScanJob),
      j.retry_count ≤ j.max_retries → Pipeline.JobStep j l j' →
      j'.status = .FAILED_PERMANENT →
      (∃ r, l = .finishL (.transientFailure r) ∧ j.retry_count = j.max_retries) ∨
      (∃ r, l = .finishL (.permanentFailure r))) := by
  constructor
  · intro j0 j h0 hrtc
    induction hrtc with
    | refl => rw [h0]; exact Nat.zero_le _
    | tail hab hbc ih =>
      obtain ⟨l, hl⟩ := hbc
      exact jobStep_retry_le ih hl
  · intro j l j' hinv hs hfp
    cases hs with
    | claim inst h => exact absurd hfp (by simp)
    | expire s h hsel =>
      rw [show ({ j with status := s, sonar_instance := none } :
        Pipeline.ScanJob).status = s from rfl] at hfp
      rw [hfp] at hsel
      exact absurd hsel (by simp [Pipeline.eligibleStatus])
    | operatorRetry co cs => exact absurd hfp (by simp [Pipeline.retryScanJob])
    | finish o h =>
      cases o with
      | success m => exact absurd hfp (by simp [Pipeline.applyOutcome])
      | permanentFailure r => exact Or.inr ⟨r, rfl⟩
      | transientFailure r =>
        simp only [Pipeline.applyOutcome] at hfp
        split at hfp
        · exact absurd hfp (by simp)
        · next h' => exact Or.inl ⟨r, rfl, by omega⟩

/-- C1 witness: the concrete fresh job, reachable in zero steps from
itself, satisfies the budget bound. -/
theorem retry_budget_invariant_witness :
    Pipeline.demoJob.retry_count ≤ Pipeline.demoJob.max_retries :=
  retry_budget_invariant.1 Pipeline.demoJob Pipeline.demoJob rfl Relation.ReflTransGen.refl

/-- Helper: the empty store makes every id vacuously running. -/
theorem idRunning_nil (i : String) : Pipeline.idRunning [] i :=
  fun j hj => absurd hj (List.not_mem_nil j)

/-- Helper: unfolding `idRunning` over a cons cell. -/
theorem idRunning_cons {a : Pipeline.ScanJob} {l : List Pipeline.ScanJob} {i : String} :
    Pipeline.idRunning (a :: l) i ↔
      (a.id = i → a.status = .RUNNING) ∧ Pipeline.idRunning l i := by
  constructor
  · intro h
    exact ⟨fun hid => h a (List.mem_cons_self a l) hid,
      fun j hj hid => h j (List.mem_cons_of_mem _ hj) hid⟩
  · rintro ⟨h1, h2⟩ j hj hid
    rcases List.mem_cons.mp hj with rfl | hj'
    · exact h1 hid
    · exact h2 j hj' hid

/-- Helper: a claim round permutes no rows: the post-store has the same ids
in the same order as the pre-store. -/
theorem claimNext_ids (js : List Pipeline.ScanJob) : ∀ n : Nat,
    ((Pipeline.claimNext js n).2).map (·.id) = js.map (·.id) := by
  induction js with
  | nil => intro n; simp [Pipeline.claimNext]
  | cons a rest ih =>
    intro n
    cases n with
    | zero => simp [Pipeline.claimNext]
    | succ m =>
      by_cases h : Pipeline.eligibleStatus a.status = true
      · simp [Pipeline.claimNext, h, ih]
      · simp [Pipeline.claimNext, h, ih]

/-- Helper: every returned job of a claim round comes from an eligible row
of the pre-store with the same id. -/
theorem claimNext_claimed_eligible (js : List Pipeline.ScanJob) : ∀ (n : Nat)
    (j : Pipeline.ScanJob), j ∈ (Pipeline.claimNext js n).1 →
    ∃ j0 ∈ js, j0.id = j.id ∧ Pipeline.eligibleStatus j0.status = true := by
  induction js with
  | nil => intro n j hj; simp [Pipeline.claimNext] at hj
  | cons a rest ih =>
    intro n j hj
    cases n with
    | zero => simp [Pipeline.claimNext] at hj
    | succ m =>
      by_cases h : Pipeline.eligibleStatus a.status = true
      · have hclaim : (Pipeline.claimNext (a :: rest) (m + 1)).1 =
            ({ a with status := .RUNNING }) :: (Pipeline.claimNext rest m).1 := by
          simp [Pipeline.claimNext, h]
        rw [hclaim] at hj
        rcases List.mem_cons.mp hj with rfl | hj'
        · exact ⟨a, List.mem_cons_self a rest, rfl, h⟩
        · obtain ⟨j0, hj0, hid, hel⟩ := ih m j hj'
          exact ⟨j0, List.mem_cons_of_mem _ hj0, hid, hel⟩
      · have hclaim : (Pipeline.claimNext (a :: rest) (m + 1)).1 =
            (Pipeline.claimNext rest (m + 1)).1 := by
          simp [Pipeline.claimNext, h]
        rw [hclaim] at hj
        obtain ⟨j0, hj0, hid, hel⟩ := ih (m + 1) j hj
        exact ⟨j0, List.mem_cons_of_mem _ hj0, hid, hel⟩

/-- Helper: a claim round never takes a `RUNNING` row, so ids whose rows are
all `RUNNING` stay that way across the round. -/
theorem idRunning_preserved (js : List Pipeline.ScanJob) : ∀ (n : Nat) (i : String),
    Pipeline.idRunning js i → Pipeline.idRunning (Pipeline.claimNext js n).2 i := by
  induction js with
  | nil =>
    intro n i _
    have : (Pipeline.claimNext ([] : List Pipeline.ScanJob) n).2 = [] := by
      simp [Pipeline.claimNext]
    rw [this]
    exact idRunning_nil i
  | cons a rest ih =>
    intro n i hrun
    obtain ⟨ha, hrest⟩ := idRunning_cons.mp hrun
    cases n with
    | zero =>
      have : (Pipeline.claimNext (a :: rest) 0).2 = a :: rest := by
        simp [Pipeline.claimNext]
      rw [this]
      exact hrun
    | succ m =>
      by_cases h : Pipeline.eligibleStatus a.status = true
      · have hpost : (Pipeline.claimNext (a :: rest) (m + 1)).2 =
            ({ a with status := .RUNNING }) :: (Pipeline.claimNext rest m).2 := by
          simp [Pipeline.claimNext, h]
        rw [hpost]
        exact idRunning_cons.mpr ⟨fun _ => rfl, ih m i hrest⟩
      · have hpost : (Pipeline.claimNext (a :: rest) (m + 1)).2 =
            a :: (Pipeline.claimNext rest (m + 1)).2 := by
          simp [Pipeline.claimNext, h]
        rw [hpost]
        exact idRunning_cons.mpr ⟨ha, ih (m + 1) i hrest⟩

/-- Helper: a claim round returns no job whose id is pinned `RUNNING` in the
pre-store, because it only takes eligible rows. -/
theorem claimNext_avoids_running (js : List Pipeline.ScanJob) (n : Nat) (i : String)
    (hrun : Pipeline.idRunning js i) :
    ∀ j ∈ (Pipeline.claimNext js n).1, j.id ≠ i := by
  intro j hj hid
  obtain ⟨j0, hj0mem, hj0id, hj0el⟩ := claimNext_claimed_eligible js n j hj
  have hr := hrun j0 hj0mem (hj0id.trans hid)
  rw [hr] at hj0el
  simp [Pipeline.eligibleStatus] at hj0el

/-- Helper: when the store's ids are unique, every id a claim round returns
is pinned `RUNNING` in the post-store. -/
theorem claimed_idRunning (js : List Pipeline.ScanJob) : ∀ (n : Nat)
    (j : Pipeline.ScanJob), (js.map (·.id)).Nodup →
    j ∈ (Pipeline.claimNext js n).1 →
    Pipeline.idRunning (Pipeline.claimNext js n).2 j.id := by
  induction js with
  | nil => intro n j _ hj; simp [Pipeline.claimNext] at hj
  | cons a rest ih =>
    intro n j hnd hj
    have hnd2 : a.id ∉ rest.map (·.id) ∧ (rest.map (·.id)).Nodup :=
      List.nodup_cons.mp hnd
    have hani : a.id ∉ rest.map (·.id) := hnd2.1
    have hnd' : (rest.map (·.id)).Nodup := hnd2.2
    cases n with
    | zero => simp [Pipeline.claimNext] at hj
    | succ m =>
      by_cases h : Pipeline.eligibleStatus a.status = true
      · have hclaim : (Pipeline.claimNext (a :: rest) (m + 1)).1 =
            ({ a with status := .RUNNING }) :: (Pipeline.claimNext rest m).1 := by
          simp [Pipeline.claimNext, h]
        have hpost : (Pipeline.claimNext (a :: rest) (m + 1)).2 =
            ({ a with status := .RUNNING }) :: (Pipeline.claimNext rest m).2 := by
          simp [Pipeline.claimNext, h]
        rw [hclaim] at hj
        rw [hpost]
        rcases List.mem_cons.mp hj with heq | hj'
        · subst heq
          refine idRunning_cons.mpr ⟨fun _ => rfl, ?_⟩
          intro j' hj'mem hid'
          exfalso
          apply hani
          have hmem : j'.id ∈ ((Pipeline.claimNext rest m).2).map (·.id) :=
            List.mem_map_of_mem _ hj'mem
          rw [claimNext_ids rest m] at hmem
          rw [hid'] at hmem
          exact hmem
        · exact idRunning_cons.mpr ⟨fun _ => rfl, ih m j hnd' hj'⟩
      · have hclaim : (Pipeline.claimNext (a :: rest) (m + 1)).1 =
            (Pipeline.claimNext rest (m + 1)).1 := by
          simp [Pipeline.claimNext, h]
        have hpost : (Pipeline.claimNext (a :: rest) (m + 1)).2 =
            a :: (Pipeline.claimNext rest (m + 1)).2 := by
          simp [Pipeline.claimNext, h]
        rw [hclaim] at hj
        rw [hpost]
        refine idRunning_cons.mpr ⟨?_, ih (m + 1) j hnd' hj⟩
        intro hid
        exfalso
        obtain ⟨j0, hj0mem, hj0id, _⟩ := claimNext_claimed_eligible rest (m + 1) j hj
        apply hani
        rw [hid, ← hj0id]
        exact List.mem_map_of_mem _ hj0mem

/-- Helper: an id pinned `RUNNING` before a whole round of claims is never
returned by any claim of the round. -/
theorem claimSeq_avoids_running : ∀ (ns : List Nat) (js : List Pipeline.ScanJob)
    (i : String), Pipeline.idRunning js i →
    ∀ r ∈ Pipeline.claimSeq js ns, ∀ j ∈ r, j.id ≠ i := by
  intro ns
  induction ns with
  | nil => intro js i _ r hr; simp [Pipeline.claimSeq] at hr
  | cons n ns ih =>
    intro js i hrun r hr
    rw [show Pipeline.claimSeq js (n :: ns) =
      (Pipeline.claimNext js n).1 :: Pipeline.claimSeq (Pipeline.claimNext js n).2 ns
      from rfl] at hr
    rcases List.mem_cons.mp hr with rfl | hr'
    · exact claimNext_avoids_running js n i hrun
    · exact ih _ i (idRunning_preserved js n i hrun) r hr'

/-- C3: claim operations are mutually exclusive.  Each `claim_next` is one
atomic conditional update, so any interleaving of N concurrent callers is
equal to the callers' claims applied in some sequential order; for every
such order over a store with unique job ids, the batches the callers
receive are pairwise disjoint: no job id is ever handed to two callers. -/
theorem claim_exclusivity : ∀ (ns : List Nat) (js : List Pipeline.ScanJob),
    (js.map (·.id)).Nodup →
    List.Pairwise (fun r1 r2 => ∀ j1 ∈ r1, ∀ j2 ∈ r2, j1.id ≠ j2.id)
      (Pipeline.claimSeq js ns) := by
  intro ns
  induction ns with
  | nil => intro js _; simp [Pipeline.claimSeq]
  | cons n ns ih =>
    intro js hnd
    rw [show Pipeline.claimSeq js (n :: ns) =
      (Pipeline.claimNext js n).1 :: Pipeline.claimSeq (Pipeline.claimNext js n).2 ns
      from rfl]
    refine List.Pairwise.cons ?_ (ih _ ?_)
    · intro r hr j1 hj1 j2 hj2
      have hrun := claimed_idRunning js n j1 hnd hj1
      exact (claimSeq_avoids_running ns (Pipeline.claimNext js n).2 j1.id hrun r hr j2 hj2).symm
    · rw [claimNext_ids js n]; exact hnd

/-- C3 witness: two concurrent single-job claims against the concrete store
return disjoint batches. -/
theorem claim_exclusivity_witness :
    List.Pairwise (fun r1 r2 => ∀ j1 ∈ r1, ∀ j2 ∈ r2, j1.id ≠ j2.id)
      (Pipeline.claimSeq Pipeline.demoStore [1, 1]) :=
  claim_exclusivity [1, 1] Pipeline.demoStore (by decide)


/-- Helper: after an override is applied, looking the record up by id finds
an entry with that id carrying the new override text. -/
theorem find_after_override (l : List BuildRisk.FailedScan) (fid cfg : String)
    (hex : ∃ f ∈ l, f.id = fid) :
    ∃ f', (Pipeline.applyOverride l fid cfg).find? (fun g => g.id == fid) = some f' ∧
      f'.id = fid ∧ f'.config_override = some cfg := by
  induction l with
  | nil =>
    obtain ⟨f, hf, _⟩ := hex
    exact absurd hf (List.not_mem_nil f)
  | cons a rest ih =>
    by_cases ha : a.id = fid
    · refine ⟨{ a with config_override := some cfg, config_source := some "text" },
        ?_, ha, rfl⟩
      simp [Pipeline.applyOverride, ha, List.find?]
    · have hex' : ∃ f ∈ rest, f.id = fid := by
        obtain ⟨f, hf, hfid⟩ := hex
        rcases List.mem_cons.mp hf with rfl | hf'
        · exact absurd hfid ha
        · exact ⟨f, hf', hfid⟩
      obtain ⟨f', hfind, hid, hco⟩ := ih hex'
      refine ⟨f', ?_, hid, hco⟩
      rw [show Pipeline.applyOverride (a :: rest) fid cfg =
        a :: Pipeline.applyOverride rest fid cfg by simp [Pipeline.applyOverride, ha]]
      rw [List.find?_cons_of_neg _ (by simp [ha])]
      exact hfind

/-- C6: requeueing a failure-ledger record after applying a new config
override creates a fresh `ScanJob` in `PENDING` with `retry_count = 0`
carrying the override, and the original record stays in the ledger (same
record count) marked resolved. -/
theorem requeue_behavior (st : Pipeline.LedgerState) (fid cfg jid : String)
    (mr : Nat) (now : String) (hex : ∃ f ∈ st.failures, f.id = fid) :
    (∃ j ∈ (Pipeline.requeue
        { st with failures := Pipeline.applyOverride st.failures fid cfg }
        fid jid mr now).jobs,
      j.id = jid ∧ j.status = .PENDING ∧ j.retry_count = 0 ∧
        j.config_override = some cfg) ∧
    (∃ g ∈ (Pipeline.requeue
        { st with failures := Pipeline.applyOverride st.failures fid cfg }
        fid jid mr now).failures,
      g.id = fid ∧ g.status = "resolved" ∧ g.resolved_at = some now) ∧
    (Pipeline.requeue
        { st with failures := Pipeline.applyOverride st.failures fid cfg }
        fid jid mr now).failures.length = st.failures.length := by
  obtain ⟨f', hfind, hid, hco⟩ := find_after_override st.failures fid cfg hex
  have hreq : Pipeline.requeue
      { st with failures := Pipeline.applyOverride st.failures fid cfg } fid jid mr now =
      { jobs := Pipeline.requeueJob f' jid mr now :: st.jobs
        failures := (Pipeline.applyOverride st.failures fid cfg).map
          fun g => if g.id = fid then Pipeline.markResolved g now else g } := by
    unfold Pipeline.requeue
    rw [show ({ st with failures := Pipeline.applyOverride st.failures fid cfg } :
      Pipeline.LedgerState).failures = Pipeline.applyOverride st.failures fid cfg from rfl,
      hfind]
  rw [hreq]
  refine ⟨⟨Pipeline.requeueJob f' jid mr now, List.mem_cons_self _ _, rfl, rfl, rfl, hco⟩,
    ?_, ?_⟩
  · obtain ⟨f, hf, hfid⟩ := hex
    refine ⟨Pipeline.markResolved
        { f with config_override := some cfg, config_source := some "text" } now,
      ?_, hfid, rfl, rfl⟩
    have h1 : ({ f with config_override := some cfg, config_source := some "text" } :
        BuildRisk.FailedScan) ∈ Pipeline.applyOverride st.failures fid cfg := by
      unfold Pipeline.applyOverride
      exact List.mem_map.mpr ⟨f, hf, by simp [hfid]⟩
    exact List.mem_map.mpr ⟨_, h1, by
      show (if ({ f with config_override := some cfg, config_source := some "text" } :
          BuildRisk.FailedScan).id = fid then
          Pipeline.markResolved
            { f with config_override := some cfg, config_source := some "text" } now
        else
          { f with config_override := some cfg, config_source := some "text" }) =
        Pipeline.markResolved
          { f with config_override := some cfg, config_source := some "text" } now
      rw [if_pos hfid]⟩
  · simp [Pipeline.applyOverride]

/-- C6 witness: requeueing the concrete failed record with a fresh override
yields the fresh pending job carrying it. -/
theorem requeue_behavior_witness :
    ∃ j ∈ (Pipeline.requeue
        { Pipeline.demoLedger with
          failures := Pipeline.applyOverride Pipeline.demoLedger.failures "fail-1"
            "sonar.projectKey=x" }
        "fail-1" "job-9" 2 "t1").jobs,
      j.id = "job-9" ∧ j.status = .PENDING ∧ j.retry_count = 0 ∧
        j.config_override = some "sonar.projectKey=x" :=
  (requeue_behavior Pipeline.demoLedger "fail-1" "sonar.projectKey=x" "job-9" 2 "t1"
    ⟨Pipeline.demoFailed, by simp [Pipeline.demoLedger], rfl⟩).1

/-- C8: the list-jobs operation returns as total the number of jobs
matching the status / project-id filters, returns at most a page of items,
returns only store jobs that match the filters, and in particular under the
FAILED_PERMANENT status filter every returned job is permanently failed. -/
theorem list_jobs_spec (store : List Pipeline.ScanJob) (f : Pipeline.ScanJobFilters)
    (page pageSize : Nat) (sortBy sortDir : String) :
    (Pipeline.listJobs store f page pageSize sortBy sortDir).2 =
      (store.filter (Pipeline.matchesFilters f)).length ∧
    (Pipeline.listJobs store f page pageSize sortBy sortDir).1.length ≤ pageSize ∧
    (∀ j ∈ (Pipeline.listJobs store f page pageSize sortBy sortDir).1,
      j ∈ store ∧ Pipeline.matchesFilters f j = true) ∧
    (f.status = some .FAILED_PERMANENT →
      ∀ j ∈ (Pipeline.listJobs store f page pageSize sortBy sortDir).1,
        j.status = .FAILED_PERMANENT) := by
  have hmem : ∀ j ∈ (Pipeline.listJobs store f page pageSize sortBy sortDir).1,
      j ∈ store.filter (Pipeline.matchesFilters f) := by
    intro j hj
    have h1 : j ∈ (List.insertionSort (Pipeline.jobOrder sortBy sortDir)
        (store.filter (Pipeline.matchesFilters f))).drop ((page - 1) * pageSize) :=
      List.take_subset _ _ hj
    have h2 : j ∈ List.insertionSort (Pipeline.jobOrder sortBy sortDir)
        (store.filter (Pipeline.matchesFilters f)) :=
      List.drop_subset _ _ h1
    exact (List.mem_insertionSort _).mp h2
  refine ⟨rfl, ?_, fun j hj => ?_, fun hst j hj => ?_⟩
  · show (((List.insertionSort (Pipeline.jobOrder sortBy sortDir)
      (store.filter (Pipeline.matchesFilters f))).drop
        ((page - 1) * pageSize)).take pageSize).length ≤ pageSize
    rw [List.length_take]
    exact min_le_left _ _
  · exact ⟨List.mem_of_mem_filter (hmem j hj), List.of_mem_filter (hmem j hj)⟩
  · have hmatch := List.of_mem_filter (hmem j hj)
    rw [Pipeline.matchesFilters, hst] at hmatch
    simp only [Bool.and_eq_true, decide_eq_true_eq] at hmatch
    exact hmatch.1

/-- C8 witness: on the concrete store, the FAILED_PERMANENT filter reports
the matching count and the concrete returned job is permanently failed. -/
theorem list_jobs_spec_witness :
    (Pipeline.listJobs Pipeline.demoStore ⟨some .FAILED_PERMANENT, none⟩ 1 20
      "updated_at" "asc").2 =
      (Pipeline.demoStore.filter
        (Pipeline.matchesFilters ⟨some .FAILED_PERMANENT, none⟩)).length ∧
    Pipeline.demoJob2.status = .FAILED_PERMANENT :=
  ⟨(list_jobs_spec Pipeline.demoStore ⟨some .FAILED_PERMANENT, none⟩ 1 20
      "updated_at" "asc").1,
    (list_jobs_spec Pipeline.demoStore ⟨some .FAILED_PERMANENT, none⟩ 1 20
      "updated_at" "asc").2.2.2 rfl Pipeline.demoJob2 (by decide)⟩
